import Mathlib

/-!
Shallow embedding of the retrieval, ranking and access-control core of the
Travelers RAG backend (server.js): permission filtering
(filterChunksByPermissions), the hybrid search merge-boost-sort pipeline
(performHybridSearch), follow-up query expansion, prior-context merging and
the per-session state update of the retrieve endpoint.

Modelling conventions:
JavaScript strings are Lean strings handled through their character lists
(ASCII behaviour of toLowerCase and of the character classes); JavaScript
numbers are rationals; a JavaScript Map is an insertion-ordered association
list; a JavaScript Set is an insertion-ordered duplicate-free list; the
stable Array.prototype.sort with a score-difference comparator is insertion
sort with the matching total comparator; external calls (Neo4j vector and
fulltext queries, the answer generator) are inputs, an Except input standing
for a call that can throw.  The values produced by the JavaScript regular
expression engine for the ranking boosts are collected in a RegexEnv input.
-/

namespace Rag

/-- ASCII subset of the JavaScript whitespace class used by the regexes in
server.js (split on whitespace runs, the word-character class complement). -/
def jsIsSpace (c : Char) : Bool := c == ' ' || c == '\t' || c == '\n' || c == '\r'

/-- JavaScript word character class: letters, digits, underscore (ASCII). -/
def jsIsWordChar (c : Char) : Bool := c.isAlphanum || c == '_'

/-- Is the first list a prefix of the second list of characters. -/
def charsStartWith : List Char → List Char → Bool
  | [], _ => true
  | _ :: _, [] => false
  | p :: ps, s :: ss => p == s && charsStartWith ps ss

/-- Does the second list contain the first list as a contiguous sublist. -/
def charsContain (pat : List Char) : List Char → Bool
  | [] => pat.isEmpty
  | s :: ss => charsStartWith pat (s :: ss) || charsContain pat ss

/-- JavaScript String.prototype.includes. -/
def strIncludes (s pat : String) : Bool := charsContain pat.toList s.toList

/-- JavaScript String.prototype.toLowerCase (ASCII). -/
def jsToLower (s : String) : String := ⟨s.data.map Char.toLower⟩

/-- JavaScript String.prototype.trim (ASCII whitespace). -/
def jsTrim (s : String) : String :=
  ⟨((s.data.dropWhile jsIsSpace).reverse.dropWhile jsIsSpace).reverse⟩

/-- The replacement of every character that is neither a word character nor
whitespace by a space, as in replacing the complement class globally with a
single space. -/
def replaceNonWordWithSpace (s : String) : String :=
  ⟨s.data.map (fun c => if jsIsWordChar c || jsIsSpace c then c else ' ')⟩

/-- The deletion of every character that is neither a word character nor
whitespace, as in replacing the complement class globally with the empty
string. -/
def stripNonWord (s : String) : String :=
  ⟨s.data.filter (fun c => jsIsWordChar c || jsIsSpace c)⟩

/-- Splitting on maximal whitespace runs, JavaScript split semantics: a
leading run yields a leading empty segment, a trailing run a trailing empty
segment.  The boolean records whether the previous character was part of a
whitespace run. -/
def jsSplitWsAux : List Char → List Char → Bool → List String
  | [], acc, _ => [⟨acc.reverse⟩]
  | c :: cs, acc, prevSpace =>
    if jsIsSpace c then
      if prevSpace then jsSplitWsAux cs acc true
      else ⟨acc.reverse⟩ :: jsSplitWsAux cs [] true
    else jsSplitWsAux cs (c :: acc) false

/-- JavaScript split on the whitespace-run regex. -/
def jsSplitWs (s : String) : List String := jsSplitWsAux s.data [] false

/-- JavaScript Array.prototype.join with a single space. -/
def joinSpace : List String → String
  | [] => ""
  | x :: xs => xs.foldl (fun acc y => acc ++ " " ++ y) x

/-- JavaScript Array.prototype.slice with a negative start: the last n
elements (all of them when the list is shorter). -/
def lastN (n : Nat) (l : List α) : List α := l.drop (l.length - n)

/-- The text after the first occurrence of pat, none when pat does not
occur. -/
def afterFirst (pat : List Char) : List Char → Option (List Char)
  | [] => if pat.isEmpty then some [] else none
  | s :: ss =>
    if charsStartWith pat (s :: ss) then some ((s :: ss).drop pat.length)
    else afterFirst pat ss

/-- Split a character list on a separator character (used for the line
structure relevant to the regex dot, which does not match line
terminators). -/
def splitOnChar (sep : Char) (l : List Char) : List (List Char) :=
  l.foldr
    (fun c acc =>
      if c == sep then [] :: acc
      else match acc with
        | [] => [[c]]
        | a :: as => (c :: a) :: as)
    [[]]

/-- The lines of a string, splitting on the line terminators the JavaScript
regex dot does not match (newline and carriage return). -/
def jsLines (s : String) : List (List Char) :=
  (splitOnChar '\n' s.data).foldr (fun l acc => splitOnChar '\r' l ++ acc) []

/-- Test of the JavaScript regex piece a dot-star b on a string: some
occurrence of b after some occurrence of a with no line terminator in
between. -/
def regexGapTest (a b : String) (s : String) : Bool :=
  (jsLines s).any fun line =>
    match afterFirst a.toList line with
    | some rest => charsContain b.toList rest
    | none => false

/-- JavaScript Set.prototype.add on an insertion-ordered duplicate-free
list: adding a present element does not move it. -/
def setAdd (l : List String) (x : String) : List String :=
  if l.contains x then l else l ++ [x]

/-- Adding every element of a list to an insertion-ordered set. -/
def setAddAll (l : List String) (xs : List String) : List String :=
  xs.foldl setAdd l

/-! The data model: chunks (passages) and users. -/

/-- A knowledge-base chunk as handled by the retrieval pipeline: the fields
returned by the Neo4j queries plus the searchType provenance tag and the
finalScore computed during ranking (absent on records that have not been
ranked, matching the missing property in JavaScript). -/
structure Chunk where
  id : String
  text : String
  access_level : String
  departments : List String
  score : ℚ
  searchType : String
  finalScore : Option ℚ
deriving DecidableEq

/-- The authenticated user context attached to a request by the auth
middleware: role name, optional department, numeric access level. -/
structure User where
  id : String
  username : String
  role : String
  department : Option String
  accessLevel : Int
deriving DecidableEq

/-- The per-chunk permission decision of filterChunksByPermissions for an
authenticated user, following the switch on the chunk access level. -/
def chunkAllowedForUser (user : User) (chunk : Chunk) : Bool :=
  let accessLevel := chunk.access_level
  let departments := chunk.departments
  let userDept := match user.department with
    | some d => jsToLower d
    | none => ""
  if user.role == "admin" then true
  else if accessLevel == "public" then true
  else if accessLevel == "departmental" then
    departments.any (fun dept => jsToLower dept == userDept)
  else if accessLevel == "internal" then
    let isManager := user.role == "manager" || decide (2 ≤ user.accessLevel)
    let isFinance := userDept == "finance"
    let hasManagementAccess := departments.contains "management" && isManager
    let hasFinanceAccess := departments.contains "finance" && isFinance
    hasManagementAccess || hasFinanceAccess
  else if accessLevel == "confidential" then
    user.role == "admin" || decide (3 ≤ user.accessLevel)
  else false

/-- filterChunksByPermissions from server.js: unauthenticated callers keep
only public chunks, authenticated callers are filtered by
chunkAllowedForUser. -/
def filterChunksByPermissions (chunks : List Chunk) (user : Option User) : List Chunk :=
  match user with
  | none => chunks.filter (fun chunk => chunk.access_level == "public")
  | some u => chunks.filter (chunkAllowedForUser u)

/-- The permission predicate applied per chunk, for either kind of caller. -/
def chunkAllowed (user : Option User) (chunk : Chunk) : Bool :=
  match user with
  | none => chunk.access_level == "public"
  | some u => chunkAllowedForUser u chunk

theorem filterChunksByPermissions_eq_filter (chunks : List Chunk) (user : Option User) :
    filterChunksByPermissions chunks user = chunks.filter (chunkAllowed user) := by
  cases user <;> rfl

theorem mem_filterChunksByPermissions {c : Chunk} {chunks : List Chunk} {user : Option User}
    (h : c ∈ filterChunksByPermissions chunks user) :
    c ∈ chunks ∧ chunkAllowed user c = true := by
  rw [filterChunksByPermissions_eq_filter] at h
  exact List.mem_filter.mp h

/-! The hybrid search pipeline of performHybridSearch. -/

/-- The monetary-question detection regex of performHybridSearch, a
disjunction of literal substring tests on the lowercased question plus one
dot-star piece (what, anything, amount). -/
def isMonetaryQuestion (questionLower : String) : Bool :=
  strIncludes questionLower "how much" || strIncludes questionLower "how many" ||
  regexGapTest "what" "amount" questionLower ||
  strIncludes questionLower "total" || strIncludes questionLower "cost" ||
  strIncludes questionLower "price" || strIncludes questionLower "money" ||
  strIncludes questionLower "dollars" || strIncludes questionLower "million" ||
  strIncludes questionLower "billion" || strIncludes questionLower "$" ||
  strIncludes questionLower "donate" || strIncludes questionLower "donated" ||
  strIncludes questionLower "donation" || strIncludes questionLower "charitable" ||
  strIncludes questionLower "charity"

/-- The values the JavaScript regular expression engine supplies to the
ranking boosts, collected as an input of the pipeline.  dates and people
stand for the date and person entity lists extracted by preprocessQuery
from the lowercased query; monetaryMatches t for the total number of
matches of the six monetary amount patterns on the lowercased chunk text t;
charityTest t for the charity-specific monetary regex test on t; decadeTest
t for the decade or longevity regex test on t. -/
structure RegexEnv where
  dates : List String
  people : List String
  monetaryMatches : String → Nat
  charityTest : String → Bool
  decadeTest : String → Bool

/-- The record constructed from one row of a Neo4j search result, tagged
with its provenance; such a record carries no finalScore yet. -/
def setSearchType (st : String) (c : Chunk) : Chunk :=
  { c with searchType := st, finalScore := none }

/-- One step of the duplicate merge of performHybridSearch: when the
incoming id is already present, the existing record keeps its place, its
score becomes the maximum of the two and the provenance tags are joined
with a plus sign; otherwise the record is appended. -/
def mergeStep (acc : List Chunk) (r : Chunk) : List Chunk :=
  if acc.any (fun c => c.id == r.id) then
    acc.map fun c =>
      if c.id == r.id then
        { c with score := max c.score r.score,
                 searchType := c.searchType ++ "+" ++ r.searchType }
      else c
  else acc ++ [r]

/-- The merge of all search results into the insertion-ordered map keyed by
chunk id (uniqueResults in performHybridSearch). -/
def mergeResults (allResults : List Chunk) : List Chunk :=
  allResults.foldl mergeStep []

/-- The monetary boost stage of performHybridSearch on one merged score:
with a monetary question, a score with monetary pattern matches is
multiplied by two plus the match count, a charity regex match multiplies by
1.5, a decade regex match multiplies by 1.3 when the question mentions
total. -/
def boostMonetary (env : RegexEnv) (questionLower : String) (isMonetary : Bool)
    (resultText : String) (s : ℚ) : ℚ :=
  if isMonetary then
    let monetaryMatches := env.monetaryMatches resultText
    let a := if 0 < monetaryMatches then s * ((2.0 : ℚ) + monetaryMatches) else s
    let b := if env.charityTest resultText then a * (1.5 : ℚ) else a
    if strIncludes questionLower "total" && env.decadeTest resultText then b * (1.3 : ℚ)
    else b
  else s

/-- The exact phrase boost stage: multiply by 1.2 when the chunk text
contains the lowercased punctuation-stripped query. -/
def boostPhrase (originalQuery resultText : String) (s : ℚ) : ℚ :=
  if strIncludes resultText (stripNonWord (jsToLower originalQuery)) then s * (1.2 : ℚ) else s

/-- The date entity boost stage: multiply by 1.3 for every extracted date
occurring in the chunk text. -/
def boostDates (env : RegexEnv) (resultText : String) (s : ℚ) : ℚ :=
  env.dates.foldl
    (fun acc date => if strIncludes resultText (jsToLower date) then acc * (1.3 : ℚ) else acc) s

/-- The person entity boost stage: multiply by 1.2 for every extracted
person occurring in the chunk text. -/
def boostPeople (env : RegexEnv) (resultText : String) (s : ℚ) : ℚ :=
  env.people.foldl
    (fun acc person => if strIncludes resultText (jsToLower person) then acc * (1.2 : ℚ) else acc) s

/-- The hybrid provenance boost stage: multiply by 1.4 when the provenance
tag is composite. -/
def boostHybrid (searchType : String) (s : ℚ) : ℚ :=
  if strIncludes searchType "+" then s * (1.4 : ℚ) else s

/-- The boost computation of performHybridSearch applied to one merged
record, setting finalScore: the sequential multiplicative updates of
boostedScore in source order (monetary stages, exact phrase, dates, people,
hybrid provenance). -/
def applyBoost (env : RegexEnv) (questionLower : String) (isMonetary : Bool)
    (originalQuery : String) (result : Chunk) : Chunk :=
  let resultText := jsToLower result.text
  { result with
    finalScore := some (boostHybrid result.searchType
      (boostPeople env resultText
        (boostDates env resultText
          (boostPhrase originalQuery resultText
            (boostMonetary env questionLower isMonetary resultText result.score))))) }

/-- The ranking stage of performHybridSearch: merge duplicates, then boost
every merged record (rankedResults). -/
def rankChunks (env : RegexEnv) (question : String) (allResults : List Chunk) : List Chunk :=
  let questionLower := jsToLower question
  (mergeResults allResults).map
    (applyBoost env questionLower (isMonetaryQuestion questionLower) question)

/-- The stable descending sort on finalScore (Array.prototype.sort with the
finalScore difference comparator; stable sort under this total comparator
is insertion sort). -/
def sortByFinalScoreDesc (l : List Chunk) : List Chunk :=
  List.insertionSort (fun a b => b.finalScore.getD 0 ≤ a.finalScore.getD 0) l

/-- The success path of performHybridSearch once both search calls have
produced their record lists: tag provenance, merge, boost, permission
filter, sort descending, keep the top five. -/
def hybridPipeline (env : RegexEnv) (question : String)
    (vectorRecords keywordRecords : List Chunk) (user : Option User) : List Chunk :=
  let vectorResults := vectorRecords.map (setSearchType "vector")
  let keywordResults := keywordRecords.map (setSearchType "keyword")
  let allResults := vectorResults ++ keywordResults
  let rankedResults := rankChunks env question allResults
  let permissionFilteredResults := filterChunksByPermissions rankedResults user
  (sortByFinalScoreDesc permissionFilteredResults).take 5

/-- performHybridSearch with its error handling: a keyword search failure
is caught and leaves the keyword results empty; a vector search failure
reaches the outer catch, which runs the fallback vector query, permission
filters its records and returns them unsorted; a failing fallback
propagates the error to the endpoint.  The three Except inputs are the
outcomes of the vector query, the keyword query and the fallback query. -/
def performHybridSearch (env : RegexEnv) (question : String) (user : Option User)
    (vecOutcome kwOutcome fallbackOutcome : Except String (List Chunk)) :
    Except String (List Chunk) :=
  match vecOutcome with
  | .error _ =>
    match fallbackOutcome with
    | .error e => .error e
    | .ok fallbackRecords =>
      .ok (filterChunksByPermissions (fallbackRecords.map (setSearchType "vector_fallback")) user)
  | .ok vectorRecords =>
    let keywordRecords := match kwOutcome with
      | .ok l => l
      | .error _ => []
    .ok (hybridPipeline env question vectorRecords keywordRecords user)

/-! The retrieve endpoint: session state, query expansion, prior-context
merge, session update. -/

/-- One conversation turn entry (sender and text; the wall-clock timestamp
recorded by the endpoint carries no information used by the logic and is
omitted). -/
structure Message where
  sender : String
  text : String
deriving DecidableEq

/-- The per-session state of the in-memory conversation store: bounded
history, insertion-ordered chunk cache keyed by chunk id, insertion-ordered
topic keyword set, optional owning user id. -/
structure SessionData where
  history : List Message
  previousChunks : List (String × Chunk)
  topicKeywords : List String
  userId : Option String
deriving DecidableEq

/-- The fresh session created when a session id is not in the store: empty,
owned by the requesting user when authenticated. -/
def freshSessionData (user : Option User) : SessionData :=
  { history := [], previousChunks := [], topicKeywords := [],
    userId := user.map fun u => u.id }

/-- The session ownership check of the endpoints: a conflict needs an
authenticated user, a recorded owner and differing ids. -/
def ownershipConflict (user : Option User) (owner : Option String) : Bool :=
  match user, owner with
  | some u, some o => o != u.id
  | _, _ => false

/-- JavaScript Map.prototype.set on the insertion-ordered association list:
an existing key keeps its place and gets the new value, a new key is
appended. -/
def mapSet (m : List (String × Chunk)) (k : String) (v : Chunk) : List (String × Chunk) :=
  if m.any (fun p => p.1 == k) then
    m.map fun p => if p.1 == k then (k, v) else p
  else m ++ [(k, v)]

/-- The follow-up heuristic of the retrieve endpoint: lowercased trimmed
question under twenty characters and nonempty history. -/
def isFollowUpQ (question : String) (sessionData : SessionData) : Bool :=
  decide ((jsTrim (jsToLower question)).length < 20) && decide (0 < sessionData.history.length)

/-- The query expansion of the retrieve endpoint: on a follow-up, a
total or overall question gets a domain-specific expansion from the ten
most recent topic keywords, any other follow-up gets the question followed
by the first three of the ten most recent topic keywords; a non-follow-up
is left unchanged. -/
def expandSearchQuery (question : String) (sessionData : SessionData) : String :=
  let questionLower := jsTrim (jsToLower question)
  if isFollowUpQ question sessionData then
    let recentTopics := lastN 10 sessionData.topicKeywords
    if strIncludes questionLower "total" || strIncludes questionLower "overall" ||
        questionLower == "and in total?" then
      if recentTopics.any (fun topic => strIncludes topic "charity" || strIncludes topic "donation") then
        "charitable donations total decade years combined philanthropic giving community support overall"
      else if recentTopics.any (fun topic => strIncludes topic "insurance") then
        "insurance total coverage policies " ++
          joinSpace (recentTopics.filter (fun t => strIncludes t "insurance"))
      else
        "total overall " ++ joinSpace (recentTopics.take 3) ++ " combined"
    else
      question ++ " " ++ joinSpace (recentTopics.take 3)
  else question

/-- The effective score the endpoint reads from a chunk, following the
JavaScript truthiness chain finalScore or score or zero (a zero finalScore
falls through to score, a zero score to zero). -/
def effScore (c : Chunk) : ℚ :=
  match c.finalScore with
  | some v => if v != 0 then v else c.score
  | none => c.score

/-- The stable descending sort on the effective score used for the combined
chunk list of the endpoint. -/
def sortByEffScoreDesc (l : List Chunk) : List Chunk :=
  List.insertionSort (fun a b => effScore b ≤ effScore a) l

/-- The prior-context merge of the retrieve endpoint: on a follow-up with a
nonempty cache, up to two cached chunks sharing a word of length above
three with the question are permission filtered, retagged as
previous_context with a 0.8 score discount, and appended to the freshly
retrieved chunks. -/
def mergePriorContext (user : Option User) (question : String)
    (sessionData : SessionData) (retrievedChunks : List Chunk) : List Chunk :=
  let questionLower := jsTrim (jsToLower question)
  if isFollowUpQ question sessionData && decide (0 < sessionData.previousChunks.length) then
    let previousChunksArray := sessionData.previousChunks.map (fun p => p.2)
    let questionWords := (jsSplitWs questionLower).filter (fun w => 3 < w.length)
    let relevantPrevious :=
      (previousChunksArray.filter fun chunk =>
        questionWords.any fun word => strIncludes (jsToLower chunk.text) word).take 2
    let filteredPrevious := filterChunksByPermissions relevantPrevious user
    retrievedChunks ++
      filteredPrevious.map fun chunk =>
        { chunk with searchType := "previous_context",
                     finalScore := some (effScore chunk * (0.8 : ℚ)) }
  else retrievedChunks

/-- The topic keyword extraction of the retrieve endpoint: lowercase,
replace punctuation by spaces, split on whitespace, keep words of length
above three outside the small stop list. -/
def questionKeywords (question : String) : List String :=
  (jsSplitWs (replaceNonWordWithSpace (jsToLower question))).filter fun word =>
    3 < word.length &&
      !(["what", "when", "where", "why", "how", "does", "did", "the"].contains word)

/-- The history update of one recorded turn: append the user and assistant
messages, keep the last twenty entries. -/
def recordHistory (history : List Message) (question answer : String) : List Message :=
  lastN 20 (history ++ [⟨"user", question⟩, ⟨"bot", answer⟩])

/-- The session update performed by the retrieve endpoint after answering:
topic keywords added, turn recorded, top chunks cached, owner set for an
authenticated caller, the three caps (twenty turns, fifty chunks, twenty
keywords) enforced by evicting oldest first. -/
def updateSession (user : Option User) (question answer : String)
    (topChunks : List Chunk) (sessionData : SessionData) : SessionData :=
  let topicKeywords1 := setAddAll sessionData.topicKeywords (questionKeywords question)
  let previousChunks1 :=
    topChunks.foldl (fun m c => mapSet m c.id c) sessionData.previousChunks
  let userId1 := match user with
    | some u => some u.id
    | none => sessionData.userId
  { history := recordHistory sessionData.history question answer,
    previousChunks :=
      if 50 < previousChunks1.length then lastN 50 previousChunks1 else previousChunks1,
    topicKeywords :=
      if 20 < topicKeywords1.length then lastN 20 topicKeywords1 else topicKeywords1,
    userId := userId1 }

/-- The response body fields of the retrieve endpoint that the core
produces (the final chunk list, the answer, the updated conversation
length, the expanded query indicator). -/
structure RetrieveResponse where
  retrievedChunks : List Chunk
  answer : String
  conversationLength : Nat
  expandedQuery : Option String
deriving DecidableEq

/-- The retrieve endpoint handler on an already looked-up session: missing
question and ownership conflict are the hard failures; otherwise the
expanded query is searched, prior context merged, the combined list
re-sorted and truncated to five, and the session updated.  The Except
inputs are the outcomes of the external store calls, answer the output of
the answer generator. -/
def retrieveHandler (env : RegexEnv) (user : Option User) (question : String)
    (sessionData : SessionData)
    (vecOutcome kwOutcome fallbackOutcome : Except String (List Chunk))
    (answer : String) : Except String (RetrieveResponse × SessionData) :=
  if question == "" then .error "QUESTION_REQUIRED"
  else if ownershipConflict user sessionData.userId then .error "SESSION_OWNERSHIP_ERROR"
  else
    let searchQuery := expandSearchQuery question sessionData
    match performHybridSearch env searchQuery user vecOutcome kwOutcome fallbackOutcome with
    | .error e => .error e
    | .ok retrievedChunks =>
      let combinedChunks := mergePriorContext user question sessionData retrievedChunks
      let topChunks := (sortByEffScoreDesc combinedChunks).take 5
      let sessionData1 := updateSession user question answer topChunks sessionData
      .ok ({ retrievedChunks := topChunks,
             answer := answer,
             conversationLength := sessionData1.history.length,
             expandedQuery := if searchQuery != question then some searchQuery else none },
           sessionData1)

/-- The conversation history endpoint response. -/
structure ConversationResponse where
  history : List Message
  messageCount : Nat
  cachedChunks : Nat
  topicKeywords : List String
  owner : Option String
deriving DecidableEq

/-- The conversation history endpoint on an already looked-up session (a
missing session id yields the empty session with no owner): the ownership
conflict is the only failure; otherwise the stored history and cache
summary are returned. -/
def conversationHandler (user : Option User) (sessionData : SessionData) :
    Except String ConversationResponse :=
  if ownershipConflict user sessionData.userId then .error "SESSION_OWNERSHIP_ERROR"
  else
    .ok { history := sessionData.history,
          messageCount := sessionData.history.length,
          cachedChunks := sessionData.previousChunks.length,
          topicKeywords := sessionData.topicKeywords,
          owner := sessionData.userId }

/-! Claim theorems. -/

/-- C1: for every candidate list and every user context, the permission
filter output never contains a confidential chunk unless the caller is an
authenticated user whose role is admin or whose numeric access level is at
least three; in particular an anonymous caller never receives a
confidential chunk, since no such user exists for it. -/
theorem confidential_only_for_admin_or_level3
    (chunks : List Chunk) (user : Option User) (c : Chunk)
    (hmem : c ∈ filterChunksByPermissions chunks user)
    (hconf : c.access_level = "confidential") :
    ∃ u : User, user = some u ∧ (u.role = "admin" ∨ 3 ≤ u.accessLevel) := by
  obtain ⟨-, hallow⟩ := mem_filterChunksByPermissions hmem
  cases user with
  | none => simp [chunkAllowed, hconf] at hallow
  | some u =>
    refine ⟨u, rfl, ?_⟩
    by_cases hr : u.role = "admin"
    · exact Or.inl hr
    · right
      simp only [chunkAllowed, chunkAllowedForUser, hconf] at hallow
      simp [hr, beq_iff_eq] at hallow
      exact hallow

/-- C1 witness: an admin user does receive a confidential chunk, and the
theorem instantiates there. -/
theorem confidential_only_for_admin_or_level3_witness :
    ∃ u : User, (some ⟨"u1", "alice", "admin", some "executive", 5⟩ : Option User) = some u ∧
      (u.role = "admin" ∨ 3 ≤ u.accessLevel) :=
  confidential_only_for_admin_or_level3
    [⟨"c1", "board minutes", "confidential", ["executive"], 1, "vector", none⟩]
    (some ⟨"u1", "alice", "admin", some "executive", 5⟩)
    ⟨"c1", "board minutes", "confidential", ["executive"], 1, "vector", none⟩
    (by with_unfolding_all decide) rfl

/-- C2: with no user context the permission filter keeps exactly the public
chunks: every chunk of the output has access level public, and every
candidate whose access level is not public is excluded. -/
theorem anonymous_filter_public_only (chunks : List Chunk) :
    (∀ c ∈ filterChunksByPermissions chunks none, c.access_level = "public") ∧
    (∀ c ∈ chunks, c.access_level ≠ "public" →
      c ∉ filterChunksByPermissions chunks none) := by
  constructor
  · intro c hc
    obtain ⟨-, h⟩ := mem_filterChunksByPermissions hc
    simpa [chunkAllowed, beq_iff_eq] using h
  · intro c _ hne hc
    obtain ⟨-, h⟩ := mem_filterChunksByPermissions hc
    simp [chunkAllowed, beq_iff_eq, hne] at h

/-- C2 witness: an internal chunk is excluded for an anonymous caller by the
theorem instantiated at a concrete candidate list. -/
theorem anonymous_filter_public_only_witness :
    (⟨"c2", "reserves", "internal", ["finance"], 1, "vector", none⟩ : Chunk) ∉
      filterChunksByPermissions
        [⟨"c1", "brochure", "public", [], 1, "vector", none⟩,
         ⟨"c2", "reserves", "internal", ["finance"], 1, "vector", none⟩] none :=
  (anonymous_filter_public_only
      [⟨"c1", "brochure", "public", [], 1, "vector", none⟩,
       ⟨"c2", "reserves", "internal", ["finance"], 1, "vector", none⟩]).2
    ⟨"c2", "reserves", "internal", ["finance"], 1, "vector", none⟩
    (by with_unfolding_all decide) (by decide)

/-- C8: a keyword path failure under a successful vector path is absorbed
by the inner catch: the hybrid search returns normally and its value is the
pipeline computed from the vector records with an empty keyword
contribution, so no error from the keyword path reaches the caller. -/
theorem keyword_failure_nonfatal
    (env : RegexEnv) (question : String) (user : Option User)
    (vectorRecords : List Chunk) (msg : String)
    (fallbackOutcome : Except String (List Chunk)) :
    performHybridSearch env question user (.ok vectorRecords) (.error msg) fallbackOutcome =
      .ok (hybridPipeline env question vectorRecords [] user) := rfl

/-- C9: the session ownership conflict fires exactly when the request is
authenticated, the session has a recorded owner and the two ids differ;
consequently an unauthenticated request against any session, owned or not,
is served by the conversation endpoint with the stored history and cache
summary. -/
theorem ownership_conflict_iff_and_anonymous_served
    (user : Option User) (owner : Option String) (sessionData : SessionData) :
    (ownershipConflict user owner = true ↔
      ∃ u o, user = some u ∧ owner = some o ∧ o ≠ u.id) ∧
    conversationHandler none sessionData =
      .ok { history := sessionData.history,
            messageCount := sessionData.history.length,
            cachedChunks := sessionData.previousChunks.length,
            topicKeywords := sessionData.topicKeywords,
            owner := sessionData.userId } := by
  refine ⟨?_, rfl⟩
  cases user with
  | none => simp [ownershipConflict]
  | some u =>
    cases owner with
    | none => simp [ownershipConflict]
    | some o => simp [ownershipConflict, bne_iff_ne]

/-- C9 witness: the theorem instantiated on an authenticated request
against a session owned by a different user detects the conflict. -/
theorem ownership_conflict_iff_witness :
    ownershipConflict (some ⟨"u1", "bob", "agent", none, 1⟩) (some "u2") = true :=
  ((ownership_conflict_iff_and_anonymous_served
      (some ⟨"u1", "bob", "agent", none, 1⟩) (some "u2")
      ⟨[], [], [], none⟩).1).mpr
    ⟨⟨"u1", "bob", "agent", none, 1⟩, "u2", rfl, rfl, by decide⟩

/-- C10: a successful authenticated retrieve against a session with no
recorded owner leaves the session owned by the requesting user. -/
theorem retrieve_claims_unowned_session
    (env : RegexEnv) (u : User) (question : String) (sessionData : SessionData)
    (vecOutcome kwOutcome fallbackOutcome : Except String (List Chunk))
    (answer : String) (r : RetrieveResponse) (sd1 : SessionData)
    (_hown : sessionData.userId = none)
    (h : retrieveHandler env (some u) question sessionData
          vecOutcome kwOutcome fallbackOutcome answer = .ok (r, sd1)) :
    sd1.userId = some u.id := by
  unfold retrieveHandler at h
  split at h
  · exact absurd h (by simp)
  · split at h
    · exact absurd h (by simp)
    · dsimp only at h
      split at h
      · exact absurd h (by simp)
      · rw [Except.ok.injEq, Prod.mk.injEq] at h
        rw [← h.2]
        rfl

/-- C10 witness: a concrete authenticated request against a fresh unowned
session succeeds and the updated session is owned by the requester, via the
theorem applied to the computed outcome. -/
theorem retrieve_claims_unowned_session_witness :
    (retrieveHandler ⟨[], [], fun _ => 0, fun _ => false, fun _ => false⟩
        (some ⟨"u1", "bob", "agent", none, 1⟩) "hello world" ⟨[], [], [], none⟩
        (.ok []) (.ok []) (.ok []) "hi").map (fun p => p.2.userId) = .ok (some "u1") := by
  cases hh : retrieveHandler ⟨[], [], fun _ => 0, fun _ => false, fun _ => false⟩
      (some ⟨"u1", "bob", "agent", none, 1⟩) "hello world" ⟨[], [], [], none⟩
      (.ok []) (.ok []) (.ok []) "hi" with
  | error e =>
    have hok : (retrieveHandler ⟨[], [], fun _ => 0, fun _ => false, fun _ => false⟩
        (some ⟨"u1", "bob", "agent", none, 1⟩) "hello world" ⟨[], [], [], none⟩
        (.ok []) (.ok []) (.ok []) "hi").toOption.isSome = true := by
      with_unfolding_all rfl
    rw [hh] at hok
    exact Bool.noConfusion hok
  | ok p =>
    have hu := retrieve_claims_unowned_session
      ⟨[], [], fun _ => 0, fun _ => false, fun _ => false⟩
      ⟨"u1", "bob", "agent", none, 1⟩ "hello world" ⟨[], [], [], none⟩
      (.ok []) (.ok []) (.ok []) "hi" p.1 p.2 rfl (by rw [hh])
    show Except.ok (p.2.userId) = .ok (some "u1")
    rw [hu]

/-- C6 counterexample: a follow-up question containing neither total nor
overall, in a session whose topic keyword set holds alpha, beta, gamma,
delta in that order, is expanded with alpha beta gamma (the first three of
the last ten) and the most recent keyword delta does not occur in the
expansion at all. -/
theorem followup_expansion_drops_most_recent_keyword :
    expandSearchQuery "the red logo"
        ⟨[⟨"user", "q"⟩, ⟨"bot", "a"⟩], [], ["alpha", "beta", "gamma", "delta"], none⟩ =
      "the red logo alpha beta gamma" ∧
    strIncludes
      (expandSearchQuery "the red logo"
        ⟨[⟨"user", "q"⟩, ⟨"bot", "a"⟩], [], ["alpha", "beta", "gamma", "delta"], none⟩)
      "delta" = false := by
  constructor
  · decide
  · decide

/-- C6 amended: for every follow-up whose lowercased trimmed text contains
neither total nor overall, the expanded search string is the original
question followed by the first three of the ten most recent topic keywords
of the session, space separated (the three most recent only when the
session holds at most three). -/
theorem followup_expansion_first_three_of_last_ten
    (question : String) (sessionData : SessionData)
    (hf : isFollowUpQ question sessionData = true)
    (ht : strIncludes (jsTrim (jsToLower question)) "total" = false)
    (ho : strIncludes (jsTrim (jsToLower question)) "overall" = false) :
    expandSearchQuery question sessionData =
      question ++ " " ++ joinSpace ((lastN 10 sessionData.topicKeywords).take 3) := by
  have hq : (jsTrim (jsToLower question) == "and in total?") = false := by
    by_cases h : jsTrim (jsToLower question) = "and in total?"
    · rw [h] at ht
      exact absurd ht (by decide)
    · simpa using h
  unfold expandSearchQuery
  rw [hf]
  simp [ht, ho, hq, Bool.false_or]

/-- C6 amended witness: the amended statement evaluated on the
counterexample session. -/
theorem followup_expansion_first_three_of_last_ten_witness :
    expandSearchQuery "the red logo"
        ⟨[⟨"user", "q"⟩, ⟨"bot", "a"⟩], [], ["alpha", "beta", "gamma", "delta"], none⟩ =
      "the red logo" ++ " " ++
        joinSpace ((lastN 10 ["alpha", "beta", "gamma", "delta"]).take 3) :=
  followup_expansion_first_three_of_last_ten "the red logo"
    ⟨[⟨"user", "q"⟩, ⟨"bot", "a"⟩], [], ["alpha", "beta", "gamma", "delta"], none⟩
    (by decide) (by decide) (by decide)

/-! List lemmas for the history cap. -/

theorem lastN_eq_reverse_take (n : Nat) (x : List α) :
    lastN n x = (x.reverse.take n).reverse := by
  rw [List.take_reverse, List.reverse_reverse, lastN]

theorem lastN_append_lastN (n : Nat) (l m : List α) :
    lastN n (lastN n l ++ m) = lastN n (l ++ m) := by
  rw [lastN_eq_reverse_take n (lastN n l ++ m), lastN_eq_reverse_take n (l ++ m)]
  congr 1
  rw [List.reverse_append, List.reverse_append, lastN_eq_reverse_take, List.reverse_reverse]
  rw [List.take_append_eq_append_take, List.take_append_eq_append_take, List.take_take]
  congr 2
  omega

/-- Iterating the per-request history recording over a list of
question-answer turns, starting from an empty session. -/
def recordTurns (turns : List (String × String)) : List Message :=
  turns.foldl (fun h t => recordHistory h t.1 t.2) []

/-- The unbounded conversation log of a list of turns: one user message and
one bot message per turn, in order. -/
def fullLog (turns : List (String × String)) : List Message :=
  turns.flatMap fun t => [⟨"user", t.1⟩, ⟨"bot", t.2⟩]

theorem recordTurns_eq_lastN_fullLog (turns : List (String × String)) :
    recordTurns turns = lastN 20 (fullLog turns) := by
  induction turns using List.reverseRecOn with
  | nil => rfl
  | append_singleton ts t ih =>
    rw [recordTurns, List.foldl_append, List.foldl_cons, List.foldl_nil, ← recordTurns, ih,
      recordHistory, lastN_append_lastN]
    congr 1
    simp [fullLog]

theorem length_fullLog (turns : List (String × String)) :
    (fullLog turns).length = 2 * turns.length := by
  induction turns with
  | nil => rfl
  | cons t ts ih => simp [fullLog] at ih ⊢; omega

/-- C7: the stored history is the last twenty entries of the full log, its
length never exceeds twenty after any record operation, and after
twenty-five recorded turns it is exactly twenty entries long. -/
theorem history_capped_at_twenty :
    (∀ history question answer, (recordHistory history question answer).length ≤ 20) ∧
    (∀ turns : List (String × String), recordTurns turns = lastN 20 (fullLog turns)) ∧
    (∀ turns : List (String × String), turns.length = 25 →
      (recordTurns turns).length = 20) := by
  refine ⟨?_, recordTurns_eq_lastN_fullLog, ?_⟩
  · intro h q a
    simp [recordHistory, lastN]
    omega
  · intro turns h25
    rw [recordTurns_eq_lastN_fullLog, lastN, List.length_drop, length_fullLog, h25]

/-- C7 witness: twenty-five concrete recorded turns leave exactly twenty
stored entries. -/
theorem history_capped_at_twenty_witness :
    (recordTurns (List.replicate 25 ("q", "a"))).length = 20 :=
  history_capped_at_twenty.2.2 (List.replicate 25 ("q", "a")) (by decide)

/-! Lemmas on the duplicate merge: every entry keeps an id-matching
representative whose score never decreases, appears with a unique id, and
stays nonnegative when the inputs are. -/

theorem mergeStep_keeps {acc : List Chunk} (r : Chunk) {c : Chunk} (h : c ∈ acc) :
    ∃ c2 ∈ mergeStep acc r, c2.id = c.id ∧ c.score ≤ c2.score := by
  unfold mergeStep
  split
  · refine ⟨if c.id == r.id then
        { c with score := max c.score r.score,
                 searchType := c.searchType ++ "+" ++ r.searchType }
      else c, List.mem_map_of_mem _ h, ?_, ?_⟩
    · split <;> rfl
    · split
      · exact le_max_left _ _
      · exact le_rfl
  · exact ⟨c, List.mem_append_left _ h, rfl, le_rfl⟩

theorem mergeStep_covers_new (acc : List Chunk) (r : Chunk) :
    ∃ c2 ∈ mergeStep acc r, c2.id = r.id ∧ r.score ≤ c2.score := by
  unfold mergeStep
  split
  next hany =>
    obtain ⟨c, hc, hid⟩ := List.any_eq_true.mp hany
    refine ⟨{ c with score := max c.score r.score,
                     searchType := c.searchType ++ "+" ++ r.searchType }, ?_, ?_,
      le_max_right _ _⟩
    · have hm := List.mem_map_of_mem
        (fun c => if c.id == r.id then
          { c with score := max c.score r.score,
                   searchType := c.searchType ++ "+" ++ r.searchType }
        else c) hc
      simpa [hid] using hm
    · exact beq_iff_eq.mp hid
  next _ =>
    exact ⟨r, List.mem_append_right _ (List.mem_singleton.mpr rfl), rfl, le_rfl⟩

theorem foldl_mergeStep_keeps {l acc : List Chunk} {c : Chunk} (h : c ∈ acc) :
    ∃ c2 ∈ l.foldl mergeStep acc, c2.id = c.id ∧ c.score ≤ c2.score := by
  induction l generalizing acc c with
  | nil => exact ⟨c, h, rfl, le_rfl⟩
  | cons x xs ih =>
    simp only [List.foldl_cons]
    obtain ⟨c1, hc1, hid1, hs1⟩ := mergeStep_keeps x h
    obtain ⟨c2, hc2, hid2, hs2⟩ := ih hc1
    exact ⟨c2, hc2, hid2.trans hid1, hs1.trans hs2⟩

theorem foldl_mergeStep_covers {l : List Chunk} (acc : List Chunk) {s : Chunk} (hs : s ∈ l) :
    ∃ c ∈ l.foldl mergeStep acc, c.id = s.id ∧ s.score ≤ c.score := by
  induction l generalizing acc with
  | nil => cases hs
  | cons x xs ih =>
    simp only [List.foldl_cons]
    rcases List.mem_cons.mp hs with rfl | hmem
    · obtain ⟨c1, hc1, hid1, hs1⟩ := mergeStep_covers_new acc s
      obtain ⟨c2, hc2, hid2, hs2⟩ := foldl_mergeStep_keeps hc1
      exact ⟨c2, hc2, hid2.trans hid1, hs1.trans hs2⟩
    · exact ih _ hmem

/-- The ids of a chunk list. -/
def idsOf (l : List Chunk) : List String := l.map fun c => c.id

theorem idsOf_mergeStep (acc : List Chunk) (r : Chunk) :
    idsOf (mergeStep acc r) = idsOf acc ∨
    idsOf (mergeStep acc r) = idsOf acc ++ [r.id] := by
  unfold mergeStep
  split
  · left
    simp only [idsOf, List.map_map]
    apply List.map_congr_left
    intro c _
    simp only [Function.comp_apply]
    split <;> rfl
  · right
    simp [idsOf]

theorem mergeStep_ids_nodup {acc : List Chunk} {r : Chunk} (h : (idsOf acc).Nodup) :
    (idsOf (mergeStep acc r)).Nodup := by
  rcases idsOf_mergeStep acc r with heq | heq <;> rw [heq]
  · exact h
  · have hnotin : r.id ∉ idsOf acc := by
      intro hmem
      obtain ⟨c, hc, hcid⟩ := List.mem_map.mp hmem
      have : acc.any (fun c => c.id == r.id) = true :=
        List.any_eq_true.mpr ⟨c, hc, beq_iff_eq.mpr hcid⟩
      unfold mergeStep at heq
      rw [if_pos this] at heq
      have : (idsOf (acc.map fun c =>
          if c.id == r.id then
            { c with score := max c.score r.score,
                     searchType := c.searchType ++ "+" ++ r.searchType }
          else c)).length = (idsOf acc).length := by
        simp [idsOf]
      rw [heq] at this
      simp [idsOf] at this
    simp only [List.nodup_append, List.nodup_cons, List.nodup_nil]
    exact ⟨h, by simp, by simpa [List.disjoint_singleton] using hnotin⟩

theorem foldl_mergeStep_ids_nodup {l acc : List Chunk} (h : (idsOf acc).Nodup) :
    (idsOf (l.foldl mergeStep acc)).Nodup := by
  induction l generalizing acc with
  | nil => exact h
  | cons x xs ih =>
    simp only [List.foldl_cons]
    exact ih (mergeStep_ids_nodup h)

theorem mergeResults_ids_nodup (l : List Chunk) : (idsOf (mergeResults l)).Nodup :=
  foldl_mergeStep_ids_nodup (by simp [idsOf])

theorem foldl_mergeStep_nonneg {l acc : List Chunk}
    (hacc : ∀ c ∈ acc, 0 ≤ c.score) (hl : ∀ s ∈ l, 0 ≤ s.score) :
    ∀ c ∈ l.foldl mergeStep acc, 0 ≤ c.score := by
  induction l generalizing acc with
  | nil => simpa using hacc
  | cons x xs ih =>
    simp only [List.foldl_cons]
    refine ih ?_ fun s hs => hl s (List.mem_cons_of_mem _ hs)
    intro c hc
    unfold mergeStep at hc
    split at hc
    · obtain ⟨c0, hc0, rfl⟩ := List.mem_map.mp hc
      split
      · exact le_trans (hacc c0 hc0) (le_max_left _ _)
      · exact hacc c0 hc0
    · rcases List.mem_append.mp hc with hmem | hmem
      · exact hacc c hmem
      · rw [List.mem_singleton.mp hmem]
        exact hl x (List.mem_cons_self _ _)

/-! Lemmas on the multiplicative boosts: each stage can only increase a
nonnegative score. -/

theorem le_mul_boost {x k : ℚ} (hx : 0 ≤ x) (hk : 1 ≤ k) : x ≤ x * k ∧ 0 ≤ x * k :=
  ⟨le_mul_of_one_le_right hx hk, mul_nonneg hx (le_trans zero_le_one hk)⟩

theorem le_ite_boost (p : Prop) [Decidable p] (x k : ℚ) (hx : 0 ≤ x) (hk : 1 ≤ k) :
    x ≤ (if p then x * k else x) ∧ 0 ≤ (if p then x * k else x) := by
  split
  · exact le_mul_boost hx hk
  · exact ⟨le_rfl, hx⟩

theorem le_foldl_boost {β : Type} (k : ℚ) (hk : 1 ≤ k) (p : β → Bool) (l : List β)
    {x : ℚ} (hx : 0 ≤ x) :
    x ≤ l.foldl (fun acc d => if p d then acc * k else acc) x ∧
    0 ≤ l.foldl (fun acc d => if p d then acc * k else acc) x := by
  induction l generalizing x with
  | nil => exact ⟨le_rfl, hx⟩
  | cons d ds ih =>
    simp only [List.foldl_cons]
    obtain ⟨h1, h2⟩ := le_ite_boost (p d = true) x k hx hk
    obtain ⟨h3, h4⟩ := ih h2
    exact ⟨h1.trans h3, h4⟩

theorem le_boostMonetary (env : RegexEnv) (questionLower : String) (isMonetary : Bool)
    (resultText : String) {x : ℚ} (hx : 0 ≤ x) :
    x ≤ boostMonetary env questionLower isMonetary resultText x ∧
    0 ≤ boostMonetary env questionLower isMonetary resultText x := by
  unfold boostMonetary
  split
  · dsimp only
    obtain ⟨h1, h2⟩ := le_ite_boost (0 < env.monetaryMatches resultText) x
      ((2.0 : ℚ) + env.monetaryMatches resultText) hx
      (by
        have h0 : (0 : ℚ) ≤ (env.monetaryMatches resultText : ℚ) := Nat.cast_nonneg _
        linarith)
    obtain ⟨h3, h4⟩ := le_ite_boost (env.charityTest resultText = true) _ (1.5 : ℚ) h2
      (by norm_num)
    obtain ⟨h5, h6⟩ := le_ite_boost
      ((strIncludes questionLower "total" && env.decadeTest resultText) = true) _ (1.3 : ℚ) h4
      (by norm_num)
    exact ⟨h1.trans (h3.trans h5), h6⟩
  · exact ⟨le_rfl, hx⟩

theorem le_boostPhrase (originalQuery resultText : String) {x : ℚ} (hx : 0 ≤ x) :
    x ≤ boostPhrase originalQuery resultText x ∧
    0 ≤ boostPhrase originalQuery resultText x :=
  le_ite_boost _ x (1.2 : ℚ) hx (by norm_num)

theorem le_boostDates (env : RegexEnv) (resultText : String) {x : ℚ} (hx : 0 ≤ x) :
    x ≤ boostDates env resultText x ∧ 0 ≤ boostDates env resultText x :=
  le_foldl_boost (1.3 : ℚ) (by norm_num) _ env.dates hx

theorem le_boostPeople (env : RegexEnv) (resultText : String) {x : ℚ} (hx : 0 ≤ x) :
    x ≤ boostPeople env resultText x ∧ 0 ≤ boostPeople env resultText x :=
  le_foldl_boost (1.2 : ℚ) (by norm_num) _ env.people hx

theorem le_boostHybrid (searchType : String) {x : ℚ} (hx : 0 ≤ x) :
    x ≤ boostHybrid searchType x ∧ 0 ≤ boostHybrid searchType x :=
  le_ite_boost _ x (1.4 : ℚ) hx (by norm_num)

theorem le_applyBoost (env : RegexEnv) (questionLower : String) (isMonetary : Bool)
    (originalQuery : String) (c : Chunk) (hc : 0 ≤ c.score) :
    c.score ≤ (applyBoost env questionLower isMonetary originalQuery c).finalScore.getD 0 := by
  unfold applyBoost
  dsimp only
  obtain ⟨h1, h2⟩ := le_boostMonetary env questionLower isMonetary (jsToLower c.text) hc
  obtain ⟨h3, h4⟩ := le_boostPhrase originalQuery (jsToLower c.text) h2
  obtain ⟨h5, h6⟩ := le_boostDates env (jsToLower c.text) h4
  obtain ⟨h7, h8⟩ := le_boostPeople env (jsToLower c.text) h6
  obtain ⟨h9, _⟩ := le_boostHybrid c.searchType h8
  simpa using h1.trans (h3.trans (h5.trans (h7.trans h9)))

theorem applyBoost_id (env : RegexEnv) (questionLower : String) (isMonetary : Bool)
    (originalQuery : String) (c : Chunk) :
    (applyBoost env questionLower isMonetary originalQuery c).id = c.id := rfl

/-- C5: in every ranking run over raw search results with nonnegative
scores, the finalScore of a merged record is at least every raw score any
contributing search result with the same id carried, hence at least their
maximum. -/
theorem finalScore_ge_contributing_scores
    (env : RegexEnv) (question : String) (allResults : List Chunk)
    (hnn : ∀ s ∈ allResults, 0 ≤ s.score)
    (r : Chunk) (hr : r ∈ rankChunks env question allResults)
    (s : Chunk) (hs : s ∈ allResults) (hid : s.id = r.id) :
    s.score ≤ r.finalScore.getD 0 := by
  unfold rankChunks at hr
  obtain ⟨m, hm, rfl⟩ := List.mem_map.mp hr
  rw [applyBoost_id] at hid
  obtain ⟨c, hc, hcid, hcs⟩ := foldl_mergeStep_covers [] hs
  have hceqm : c = m := by
    have hnodup := mergeResults_ids_nodup allResults
    exact List.inj_on_of_nodup_map hnodup hc hm (hcid.trans hid)
  subst hceqm
  have hm0 : 0 ≤ c.score := foldl_mergeStep_nonneg (by simp) hnn c hm
  exact hcs.trans (le_applyBoost _ _ _ _ c hm0)

/-- C5 witness: a concrete two-path result set sharing one id, where the
merged finalScore dominates the larger contributing raw score. -/
theorem finalScore_ge_contributing_scores_witness :
    ((1 : ℚ) / 2) ≤
      (⟨"c1", "text one", "public", [], 1/2, "vector+keyword", some (7/10)⟩ : Chunk).finalScore.getD 0 :=
  finalScore_ge_contributing_scores
    ⟨[], [], fun _ => 0, fun _ => false, fun _ => false⟩ "who"
    [⟨"c1", "text one", "public", [], 1/2, "vector", none⟩,
     ⟨"c1", "text one", "public", [], 1/3, "keyword", none⟩]
    (by
      intro s hs
      simp only [List.mem_cons, List.not_mem_nil, or_false] at hs
      rcases hs with rfl | rfl <;> norm_num)
    ⟨"c1", "text one", "public", [], 1/2, "vector+keyword", some (7/10)⟩
    (by with_unfolding_all decide)
    ⟨"c1", "text one", "public", [], 1/2, "vector", none⟩
    (List.mem_cons_self _ _) rfl

/-! Permission preservation lemmas for the endpoint result. -/

theorem chunkAllowed_update (user : Option User) (c : Chunk) (st : String) (fs : Option ℚ) :
    chunkAllowed user { c with searchType := st, finalScore := fs } = chunkAllowed user c := by
  cases user <;> rfl

theorem hybridPipeline_allowed {env : RegexEnv} {question : String}
    {vres kres : List Chunk} {user : Option User} {c : Chunk}
    (hc : c ∈ hybridPipeline env question vres kres user) :
    chunkAllowed user c = true := by
  unfold hybridPipeline at hc
  dsimp only at hc
  have h1 := (List.take_sublist 5 _).subset hc
  have h2 := (List.perm_insertionSort
    (fun a b : Chunk => b.finalScore.getD 0 ≤ a.finalScore.getD 0) _).mem_iff.mp h1
  exact (mem_filterChunksByPermissions h2).2

theorem performHybridSearch_allowed {env : RegexEnv} {question : String}
    {user : Option User} {vecOutcome kwOutcome fallbackOutcome : Except String (List Chunk)}
    {out : List Chunk} {c : Chunk}
    (h : performHybridSearch env question user vecOutcome kwOutcome fallbackOutcome = .ok out)
    (hc : c ∈ out) : chunkAllowed user c = true := by
  unfold performHybridSearch at h
  split at h
  · split at h
    · exact absurd h (by simp)
    · rw [Except.ok.injEq] at h
      subst h
      exact (mem_filterChunksByPermissions hc).2
  · dsimp only at h
    rw [Except.ok.injEq] at h
    subst h
    exact hybridPipeline_allowed hc

theorem mergePriorContext_allowed {user : Option User} {question : String}
    {sessionData : SessionData} {retrievedChunks : List Chunk} {c : Chunk}
    (hall : ∀ x ∈ retrievedChunks, chunkAllowed user x = true)
    (hc : c ∈ mergePriorContext user question sessionData retrievedChunks) :
    chunkAllowed user c = true := by
  unfold mergePriorContext at hc
  dsimp only at hc
  split at hc
  · rcases List.mem_append.mp hc with hmem | hmem
    · exact hall c hmem
    · obtain ⟨c0, hc0, rfl⟩ := List.mem_map.mp hmem
      rw [chunkAllowed_update]
      exact (mem_filterChunksByPermissions hc0).2
  · exact hall c hc

/-- C3: every chunk of the final result list produced by the retrieve
endpoint, the prior-context chunks merged from the session cache included,
satisfies the per-request access control predicate for the current user
context; no chunk reaches the output without that check. -/
theorem response_chunks_permission_checked
    (env : RegexEnv) (user : Option User) (question : String) (sessionData : SessionData)
    (vecOutcome kwOutcome fallbackOutcome : Except String (List Chunk)) (answer : String)
    (r : RetrieveResponse) (sd1 : SessionData)
    (h : retrieveHandler env user question sessionData vecOutcome kwOutcome fallbackOutcome
          answer = .ok (r, sd1))
    (c : Chunk) (hc : c ∈ r.retrievedChunks) :
    chunkAllowed user c = true := by
  unfold retrieveHandler at h
  split at h
  · exact absurd h (by simp)
  · split at h
    · exact absurd h (by simp)
    · dsimp only at h
      split at h
      · exact absurd h (by simp)
      · rename_i retrieved hsearch
        rw [Except.ok.injEq, Prod.mk.injEq] at h
        have hrc : r.retrievedChunks =
            (sortByEffScoreDesc (mergePriorContext user question sessionData retrieved)).take 5 := by
          rw [← h.1]
        rw [hrc] at hc
        have h1 := (List.take_sublist 5 _).subset hc
        have h2 := (List.perm_insertionSort
          (fun a b : Chunk => effScore b ≤ effScore a) _).mem_iff.mp h1
        exact mergePriorContext_allowed
          (fun x hx => performHybridSearch_allowed hsearch hx) h2

/-- C3 witness: a concrete anonymous request whose response carries one
public chunk; the theorem shows it passed the permission predicate. -/
theorem response_chunks_permission_checked_witness :
    chunkAllowed none ⟨"c1", "brochure text", "public", [], 1, "vector", some 1⟩ = true :=
  response_chunks_permission_checked
    ⟨[], [], fun _ => 0, fun _ => false, fun _ => false⟩ none "hello world" ⟨[], [], [], none⟩
    (.ok [⟨"c1", "brochure text", "public", [], 1, "vector", none⟩]) (.ok []) (.ok []) "hi"
    ⟨[⟨"c1", "brochure text", "public", [], 1, "vector", some 1⟩], "hi", 2, none⟩
    (updateSession none "hello world" "hi"
      [⟨"c1", "brochure text", "public", [], 1, "vector", some 1⟩] ⟨[], [], [], none⟩)
    (by with_unfolding_all rfl)
    ⟨"c1", "brochure text", "public", [], 1, "vector", some 1⟩
    (List.mem_singleton.mpr rfl)

/-! Identifier uniqueness of a ranking run. -/

theorem idsOf_rankChunks (env : RegexEnv) (question : String) (l : List Chunk) :
    idsOf (rankChunks env question l) = idsOf (mergeResults l) := by
  unfold rankChunks idsOf
  dsimp only
  rw [List.map_map]
  apply List.map_congr_left
  intro c _
  rfl

/-- C4 counterexample: on a follow-up request the prior-context merge can
re-introduce a chunk already freshly retrieved: with the public chunk c1
both newly retrieved and sitting in the session cache, the final response
lists the identifier c1 twice after re-sort and truncation. -/
theorem final_set_duplicate_id :
    (retrieveHandler ⟨[], [], fun _ => 0, fun _ => false, fun _ => false⟩ none
        "what about umbrella"
        ⟨[⟨"user", "hi"⟩, ⟨"bot", "hello"⟩],
         [("c1", ⟨"c1", "The umbrella logo.", "public", [], 9/10, "vector", some (9/10)⟩)],
         [], none⟩
        (.ok [⟨"c1", "The umbrella logo.", "public", [], 9/10, "", none⟩]) (.ok []) (.ok [])
        "ans").map (fun p => idsOf p.1.retrievedChunks) = .ok ["c1", "c1"] ∧
    ¬ (["c1", "c1"] : List String).Nodup := by
  constructor
  · with_unfolding_all rfl
  · decide

/-- C4 amended: a ranking run of the hybrid pipeline (merge, boost,
permission filter, sort, truncate) never outputs a duplicate chunk
identifier; only the later session prior-context merge of the endpoint can
duplicate an identifier already present among the freshly retrieved
chunks. -/
theorem hybrid_output_ids_nodup
    (env : RegexEnv) (question : String) (vres kres : List Chunk) (user : Option User) :
    (idsOf (hybridPipeline env question vres kres user)).Nodup := by
  unfold hybridPipeline
  dsimp only
  have h1 : (idsOf (rankChunks env question
      (vres.map (setSearchType "vector") ++ kres.map (setSearchType "keyword")))).Nodup := by
    rw [idsOf_rankChunks]
    exact mergeResults_ids_nodup _
  have h2 : (idsOf (filterChunksByPermissions (rankChunks env question
      (vres.map (setSearchType "vector") ++ kres.map (setSearchType "keyword"))) user)).Nodup := by
    rw [filterChunksByPermissions_eq_filter]
    exact h1.sublist ((List.filter_sublist _).map _)
  have h3 : (idsOf (sortByFinalScoreDesc (filterChunksByPermissions (rankChunks env question
      (vres.map (setSearchType "vector") ++ kres.map (setSearchType "keyword"))) user))).Nodup := by
    unfold sortByFinalScoreDesc
    exact ((List.perm_insertionSort _ _).map _).nodup_iff.mpr h2
  exact h3.sublist ((List.take_sublist _ _).map _)

end Rag
